import Mathlib

/-!
Media organizer core: a shallow embedding

A shallow embedding of the planning, override, execution and cleanup engine
of the media-organizer CLI, translated from `src/fileOps.js`
(`src/unnamed/part_003`) and the `MediaOrganizer` component
(`src/unnamed/part_002`), together with theorems checking the
natural-language specification against it.

Modelling conventions:
* Filesystem paths handled as strings keep their source representation;
  `joinS`, `basenameS`, `dirnameS` model Node's `path.posix` operations on
  already-normalized multi-segment paths (no `..`, no duplicate slashes),
  which is the only way the engine uses them.
* The filesystem visible to the planner is a pure read-only view
  (`FsModel`): `pathExists` models `stat`-based existence, `hashOf` models
  `getFileHash` (the `size-md5hex` composite fingerprint) as an opaque
  string; the engine only ever compares fingerprints for equality.
* The unbounded `while (true)` conflict-resolution loop is embedded with a
  fuel parameter; running out of fuel returns `none`, so statements about
  termination become statements about the existence of sufficient fuel.
-/

namespace MediaOrg

/-! ## Path helpers (model of `path.posix` on normalized paths) -/

/-- Model of `path.join(a, b)` for a normalized directory path and a relative name. -/
def joinS (a b : String) : String := a ++ "/" ++ b

/-- Split a character list at `'/'` (`String.splitOn "/"` on character
lists; re-implemented structurally so the kernel can evaluate it). -/
def splitSeg : List Char → List (List Char)
  | [] => [[]]
  | c :: rest =>
    match splitSeg rest with
    | [] => [[]]
    | seg :: segs => if c = '/' then [] :: seg :: segs else (c :: seg) :: segs

/-- Segments of `p.split('/')`, as strings. -/
def splitOnSlash (p : String) : List String :=
  (splitSeg p.toList).map (fun l => ⟨l⟩)

/-- Rejoin segments with `'/'`. -/
def intercalateSlash : List String → String
  | [] => ""
  | [s] => s
  | s :: rest => s ++ "/" ++ intercalateSlash rest

/-- Model of `path.basename(p)`: the final segment of a slash-separated path. -/
def basenameS (p : String) : String := (splitOnSlash p).getLastD p

/-- Model of `path.dirname(p)`: everything before the final segment. -/
def dirnameS (p : String) : String :=
  let parts := splitOnSlash p
  if parts.length ≤ 1 then p else intercalateSlash parts.dropLast

/-- Index of the rightmost `'.'` in a character list, if any. -/
def lastDotPos : List Char → Option Nat
  | [] => none
  | c :: rest =>
    match lastDotPos rest with
    | some i => some (i + 1)
    | none => if c = '.' then some 0 else none

/-- Function `splitNameAndExt` from `fileOps.js`: `extname` takes the suffix from the
rightmost dot (a dot at position 0, as in `.DS_Store`, yields no extension,
matching Node's `path.extname`); the base is the filename with that suffix
sliced off. -/
def splitNameAndExt (filename : String) : String × String :=
  let cs := filename.toList
  match lastDotPos cs with
  | none => (filename, "")
  | some i => if i = 0 then (filename, "") else (⟨cs.take i⟩, ⟨cs.drop i⟩)

/-! ## Planner-visible filesystem and `resolveDestinationOperation` -/

/-- The read-only filesystem view the planner queries: `pathExists` models
`pathExists` (a `stat` that does not throw), `hashOf` models
`getFileHash(p, size)` — the opaque `size-md5` fingerprint string of the
file at `p` (meaningful only where `pathExists` is true). -/
structure FsModel where
  pathExists : String → Bool
  hashOf : String → String

/-- Result of `resolveDestinationOperation`. -/
inductive Resolution where
  | move (target : String) (targetDir : String)
  | delete (duplicateOf : String)
deriving DecidableEq, Repr

/-- Candidate file name at attempt `i`: the original `base + ext` for
`i = 0`, `base-i + ext` afterwards. -/
def candidateName (base ext : String) (i : Nat) : String :=
  if i = 0 then base ++ ext else base ++ "-" ++ toString i ++ ext

/-- Candidate destination path at attempt `i`. -/
def candPathAt (targetDir base ext : String) (i : Nat) : String :=
  joinS targetDir (candidateName base ext i)

/-- The body of the `while (true)` loop of `resolveDestinationOperation`,
with explicit attempt index `i` and fuel: a non-existent candidate yields a
`move`, an existing candidate with the source's fingerprint yields a
`delete`, otherwise the index is bumped and the loop continues. Fuel
exhaustion returns `none` (the source loop would still be running). -/
def resolveAux (fs : FsModel) (srcHash targetDir base ext : String) :
    Nat → Nat → Option Resolution
  | _, 0 => none
  | i, fuel + 1 =>
    let cp := candPathAt targetDir base ext i
    if fs.pathExists cp = false then some (.move cp targetDir)
    else if fs.hashOf cp = srcHash then some (.delete cp)
    else resolveAux fs srcHash targetDir base ext (i + 1) fuel

/-- Function `resolveDestinationOperation(info, targetDir)` from `fileOps.js`,
starting at the original base name (attempt index 0). -/
def resolveDestinationOperation (fs : FsModel) (path hash targetDir : String)
    (fuel : Nat) : Option Resolution :=
  let be := splitNameAndExt (basenameS path)
  resolveAux fs hash targetDir be.1 be.2 0 fuel

/-- The condition under which attempt `n` stops the conflict-resolution
loop: the candidate path does not exist, or it exists with the source's
fingerprint. -/
def stopCond (fs : FsModel) (srcHash targetDir base ext : String) (n : Nat) : Prop :=
  fs.pathExists (candPathAt targetDir base ext n) = false ∨
    fs.hashOf (candPathAt targetDir base ext n) = srcHash

instance (fs : FsModel) (h td b e : String) (n : Nat) :
    Decidable (stopCond fs h td b e n) := by
  unfold stopCond; infer_instance

/-! ## Dates, file records, duplicate marking and the plan loop -/

/-- A resolved capture date as the planner consumes it: `year`, `month`
(1-based, i.e. `getMonth() + 1`), `day`, plus the time-of-day fields the
metadata parser extracts. JS `Date` normalization of out-of-range
components is not modelled; no claim exercises it. -/
structure DateT where
  year : Nat
  month : Nat
  day : Nat
  hour : Nat
  minute : Nat
  second : Nat
deriving DecidableEq, Repr

/-- One `fileInfos` record from the metadata loop of `MediaOrganizer`. -/
structure FileInfo where
  path : String
  hash : String
  date : DateT
  isDuplicate : Bool
  originalPath : String
deriving DecidableEq, Repr

/-- A planned operation (the `ops` entries of `MediaOrganizer`). -/
inductive Op where
  | delete (source : String) (reason : String)
  | move (source : String) (target : String) (targetDir : String)
deriving DecidableEq, Repr

/-- Source path of a planned operation. -/
def Op.source : Op → String
  | .delete s _ => s
  | .move s _ _ => s

/-- Lookup in the association-list model of the `seenHashes` `Map`. -/
def lookupA (m : List (String × String)) (k : String) : Option String :=
  (m.find? (fun p => p.1 = k)).map (fun p => p.2)

/-- The `seenHashes` duplicate-detection loop of `MediaOrganizer` (lines
71–88): each scanned file `(path, hash, date)` becomes a `FileInfo`; a hash
already in the map marks the file duplicate with the first-seen path as
`originalPath`, otherwise the hash is inserted pointing at this path. -/
def markAux (seen : List (String × String)) :
    List (String × String × DateT) → List FileInfo
  | [] => []
  | (p, h, d) :: rest =>
    match lookupA seen h with
    | some orig =>
      { path := p, hash := h, date := d, isDuplicate := true,
        originalPath := orig } :: markAux seen rest
    | none =>
      { path := p, hash := h, date := d, isDuplicate := false,
        originalPath := "" } :: markAux ((h, p) :: seen) rest

/-- Duplicate marking over a whole scan (empty initial map). -/
def markDuplicates (files : List (String × String × DateT)) : List FileInfo :=
  markAux [] files

/-- First scanned path carrying hash `h`, in scan order. -/
def firstPathWith (files : List (String × String × DateT)) (h : String) :
    Option String :=
  (files.find? (fun f => f.2.1 = h)).map (fun f => f.1)

/-- Zero-pad to width 2: `String(n).padStart(2, '0')`. -/
def padStart2 (s : String) : String :=
  if s.length ≥ 2 then s else if s.length = 1 then "0" ++ s else "00"

/-- The planned target directory
`join(targetPath, String(year), year-month-day)` with month and day
zero-padded (lines 99–102 of `MediaOrganizer`). -/
def targetDirOf (root : String) (d : DateT) : String :=
  joinS (joinS root (toString d.year))
    (toString d.year ++ "-" ++ padStart2 (toString d.month) ++ "-" ++
      padStart2 (toString d.day))

/-- One iteration of the plan loop of `MediaOrganizer` (lines 94–111): a
duplicate record becomes a `Delete` citing its canonical path; otherwise
the record is skipped when already at its first-candidate destination, and
otherwise resolved through `resolveDestinationOperation`. `none` means the
resolution loop ran out of fuel (the source would still be looping). -/
def planStep (fs : FsModel) (root : String) (fuel : Nat) (info : FileInfo) :
    Option (List Op) :=
  if info.isDuplicate then
    some [Op.delete info.path ("Duplicate of " ++ info.originalPath)]
  else
    let targetDir := targetDirOf root info.date
    let firstCandidatePath := joinS targetDir (basenameS info.path)
    if info.path = firstCandidatePath then some []
    else
      match resolveDestinationOperation fs info.path info.hash targetDir fuel with
      | none => none
      | some (.delete dup) =>
        some [Op.delete info.path ("Duplicate of " ++ dup)]
      | some (.move t td) => some [Op.move info.path t td]

/-- The whole plan loop: operations in scan order. -/
def buildPlan (fs : FsModel) (root : String) (fuel : Nat) :
    List FileInfo → Option (List Op)
  | [] => some []
  | info :: rest => do
    let ops1 ← planStep fs root fuel info
    let more ← buildPlan fs root fuel rest
    pure (ops1 ++ more)

/-! ## The interactive override state machine (`useInput` handler)

A faithful translation of the `useInput` callback of `MediaOrganizer`
(lines 148–239).  The handler is guarded by `awaitingConfirm`/`executing`;
`renameMode` selects one of two blocks, and — exactly as in the source —
events not consumed by the arrow/`i`/`d`/`r`/escape/return branches fall
through to the shared confirm (`Enter`/`y`) and cancel (`n`/escape/`q`)
checks at the bottom.  A JavaScript `TypeError` thrown when
`operations[selectedIndex]` is `undefined` (empty plan) is modelled by the
absorbing `crashed` flag, set before any state change, matching where the
source throws. -/

/-- An override annotation on one plan index. -/
inductive Override2 where
  | ignore
  | del
  | rename (newPath : String)
deriving DecidableEq, Repr

/-- Decoded key events as ink delivers them: arrows, escape, return, or a
printable character (ink hands arrows/escape/return an empty `input`
string, so they never match the character comparisons). -/
inductive KeyEvent where
  | up
  | down
  | esc
  | ret
  | ch (c : Char)
deriving DecidableEq, Repr

/-- The React state the input handler reads and writes. -/
structure UIState where
  awaitingConfirm : Bool
  executing : Bool
  renameMode : Bool
  crashed : Bool
  selectedIndex : Int
  overrides : Int → Option Override2
  renameInput : String

/-- Indexing `operations[i]` under JavaScript array indexing: `undefined` (here
`none`) outside `0 ≤ i < length`. -/
def opAt (ops : List Op) (i : Int) : Option Op :=
  if 0 ≤ i then ops.get? i.toNat else none

/-- Pointwise update of the override map at one index. -/
def updOv (f : Int → Option Override2) (i : Int) (v : Option Override2) :
    Int → Option Override2 :=
  fun k => if k = i then v else f k

/-- The confirm branch (line 196): stop awaiting and start executing. -/
def startExec (s : UIState) : UIState :=
  { s with awaitingConfirm := false, executing := true }

/-- The cancel branch (line 234): stop awaiting; nothing executes. -/
def cancelRun (s : UIState) : UIState :=
  { s with awaitingConfirm := false }

/-- The `i` toggle (lines 164–172): remove an existing `ignore` override,
otherwise set `ignore` (replacing any other override kind). -/
def toggleIgnore (s : UIState) : UIState :=
  match s.overrides s.selectedIndex with
  | some .ignore => { s with overrides := updOv s.overrides s.selectedIndex none }
  | _ => { s with overrides := updOv s.overrides s.selectedIndex (some .ignore) }

/-- The `d` toggle (lines 173–181), same shape as `toggleIgnore`. -/
def toggleDelete (s : UIState) : UIState :=
  match s.overrides s.selectedIndex with
  | some .del => { s with overrides := updOv s.overrides s.selectedIndex none }
  | _ => { s with overrides := updOv s.overrides s.selectedIndex (some .del) }

/-- The editable text pre-seeded on entering rename mode (line 188):
destination base name for a planned move, source base name for a planned
delete. -/
def initialNameOf : Op → String
  | .move _ target _ => basenameS target
  | .delete source _ => basenameS source

/-- The `r` toggle (lines 182–193): an existing `rename` override is
removed; otherwise the selected operation is read (a missing operation
crashes, as `op.type` would throw) and rename mode is entered. -/
def toggleRename (ops : List Op) (s : UIState) : UIState :=
  match s.overrides s.selectedIndex with
  | some (.rename _) => { s with overrides := updOv s.overrides s.selectedIndex none }
  | _ =>
    match opAt ops s.selectedIndex with
    | none => { s with crashed := true }
    | some op => { s with renameInput := initialNameOf op, renameMode := true }

/-- The rename-commit branch (lines 156–162): the typed name is joined
with the planned target directory for a move, or with the source file's
directory for a delete; the index's override becomes `rename` and rename
mode ends. A missing operation crashes before any state change. -/
def commitRename (ops : List Op) (s : UIState) : UIState :=
  match opAt ops s.selectedIndex with
  | none => { s with crashed := true }
  | some op =>
    let newPath :=
      match op with
      | .move _ _ targetDir => joinS targetDir s.renameInput
      | .delete source _ => joinS (dirnameS source) s.renameInput
    { s with overrides := updOv s.overrides s.selectedIndex (some (.rename newPath)),
             renameMode := false }

/-- One step of the `useInput` handler. -/
def stepUI (ops : List Op) (s : UIState) (e : KeyEvent) : UIState :=
  if s.crashed then s
  else if !s.awaitingConfirm || s.executing then s
  else if s.renameMode then
    match e with
    | .up => s
    | .down => s
    | .esc => { s with renameMode := false }
    | .ret => commitRename ops s
    | .ch c =>
      if c.toLower = 'y' then startExec s
      else if c.toLower = 'n' || c.toLower = 'q' then cancelRun s
      else s
  else
    match e with
    | .up => { s with selectedIndex := max (s.selectedIndex - 1) 0 }
    | .down =>
      { s with selectedIndex := min (s.selectedIndex + 1) ((ops.length : Int) - 1) }
    | .esc => cancelRun s
    | .ret => startExec s
    | .ch c =>
      if c.toLower = 'i' then toggleIgnore s
      else if c.toLower = 'd' then toggleDelete s
      else if c.toLower = 'r' then toggleRename ops s
      else if c.toLower = 'y' then startExec s
      else if c.toLower = 'n' || c.toLower = 'q' then cancelRun s
      else s

/-- Session start for the dry-run review: awaiting confirmation, selection
at 0, no overrides, not in rename mode. -/
def uiInit : UIState :=
  { awaitingConfirm := true, executing := false, renameMode := false,
    crashed := false, selectedIndex := 0, overrides := fun _ => none,
    renameInput := "" }

/-- The state after a sequence of input events in one session. -/
def runUI (ops : List Op) (events : List KeyEvent) : UIState :=
  events.foldl (stepUI ops) uiInit

/-! ## Scanner (`findMediaFiles` and `isInOrganizedPath`)

Directory-tree paths are modelled as segment lists (`List String`), which
is `path.relative` plus `split` on separators for the normalized absolute
paths the scanner works with. The filesystem is a finite entry tree. -/

/-- One directory entry as `readdir(..., { withFileTypes: true })` reports
it: a plain file or a subdirectory with its own entries. -/
inductive FsEntryT where
  | file (name : String)
  | dir (name : String) (entries : List FsEntryT)

/-- Test `/^\d{4}$/` on a path segment. -/
def isYear4 (s : String) : Bool :=
  match s.toList with
  | [a, b, c, d] => a.isDigit && b.isDigit && c.isDigit && d.isDigit
  | _ => false

/-- Test `/^\d{4}-\d{2}-\d{2}$/` on a path segment. -/
def isDayStamp (s : String) : Bool :=
  match s.toList with
  | [a, b, c, d, e, f, g, h, i, j] =>
    a.isDigit && b.isDigit && c.isDigit && d.isDigit && e = '-' &&
      f.isDigit && g.isDigit && h = '-' && i.isDigit && j.isDigit
  | _ => false

/-- Function `isInOrganizedPath(root, fullPath)` from `fileOps.js`: the path is
strictly below the root and its first two segments below the root match a
4-digit year and a `YYYY-MM-DD` stamp. (`relative` yielding `''` or a
`..`-prefixed path is exactly "not strictly below root" on segment
lists.) -/
def isInOrganizedPath (root full : List String) : Bool :=
  if root.isPrefixOf full && root ≠ full then
    match full.drop root.length with
    | yearPart :: dayPart :: _ => isYear4 yearPart && isDayStamp dayPart
    | _ => false
  else false

/-- Extension casefolded membership test of `findMediaFiles` (line 183):
`[...IMAGE_EXTENSIONS, ...RAW_EXTENSIONS, ...VIDEO_EXTENSIONS]` from
`constants.js`. -/
def supportedExtensions : List String :=
  [".jpg", ".jpeg", ".png", ".gif", ".bmp", ".tiff", ".tif", ".heic",
   ".heif", ".webp",
   ".cr2", ".cr3", ".crw", ".raf", ".raw", ".dng", ".nef", ".arw", ".orf",
   ".rw2",
   ".mp4", ".mov", ".avi", ".mkv", ".m4v", ".wmv", ".flv", ".webm"]

/-- Model of `toLowerCase()`, character by character. -/
def lowerS (s : String) : String := ⟨s.toList.map Char.toLower⟩

/-- Membership test `extname(entry.name).toLowerCase()` of line 183. -/
def extSupported (name : String) : Bool :=
  supportedExtensions.contains (lowerS (splitNameAndExt name).2)

/-- The scanner's two accumulators: the ordered file list and the
visited-directory set (a `Set`, modelled as an insertion-ordered
duplicate-free list). -/
structure ScanAcc where
  files : List (List String)
  dirs : List (List String)
deriving DecidableEq, Repr

/-- Model of `Set.add`: insert if absent, preserving insertion order. -/
def addPath (l : List (List String)) (p : List String) : List (List String) :=
  if p ∈ l then l else l ++ [p]

mutual

/-- Processing of one `readdir` entry inside `findMediaFiles` (lines
175–187): an organized-path subdirectory is skipped outright (the
`continue`); any other subdirectory is added to the visited set and
descended into; a file with a supported extension is appended to the file
list. -/
def scanEntry (root dirPath : List String) (acc : ScanAcc) :
    FsEntryT → ScanAcc
  | .file name =>
    if extSupported name then
      { acc with files := acc.files ++ [dirPath ++ [name]] }
    else acc
  | .dir name es =>
    let fullPath := dirPath ++ [name]
    if isInOrganizedPath root fullPath then acc
    else scanList root fullPath { acc with dirs := addPath acc.dirs fullPath } es

/-- The `for (const entry of entries)` loop over one directory listing. -/
def scanList (root dirPath : List String) (acc : ScanAcc) :
    List FsEntryT → ScanAcc
  | [] => acc
  | e :: rest => scanList root dirPath (scanEntry root dirPath acc e) rest

end

/-- Entry point `findMediaFiles(targetPath, [], targetPath, visitedDirs)`: the root is
recorded as visited on entry, then its listing is scanned. -/
def findMediaFiles (root : List String) (entries : List FsEntryT) : ScanAcc :=
  scanList root root { files := [], dirs := [root] } entries

/-! ## Executor (the confirm branch of `useInput`, lines 202–220)

The execution loop is embedded as a trace semantics: each filesystem
mutation (`unlink`, recursive `mkdir`, `rename`) becomes an emitted
action, and `sourceDirs` is the insertion-ordered set of parent
directories of processed sources. -/

/-- A filesystem mutation the executor performs. -/
inductive FsAction where
  | unlinkA (p : String)
  | mkdirpA (p : String)
  | renameA (src dst : String)
deriving DecidableEq, Repr

/-- Model of `Set.add` on strings: insert if absent, preserving insertion order. -/
def addUnique (l : List String) (x : String) : List String :=
  if x ∈ l then l else l ++ [x]

/-- The `for (let i = 0; ...)` execution loop (lines 203–220), carrying the
running index and the `sourceDirs` accumulator: an `ignore` override skips
the entry before `sourceDirs.add`; a `delete` override unlinks the source;
a `rename` override makes the new path's parent directories and renames
the source onto it, whatever the plan entry was; with no override a plan
`delete` unlinks and a plan `move` makes the target directory and renames
onto the target. -/
def execAux (ovr : Int → Option Override2) :
    List Op → Nat → List String → List FsAction × List String
  | [], _, dirs => ([], dirs)
  | op :: rest, i, dirs =>
    match ovr (i : Int) with
    | some .ignore => execAux ovr rest (i + 1) dirs
    | some .del =>
      let r := execAux ovr rest (i + 1) (addUnique dirs (dirnameS op.source))
      (FsAction.unlinkA op.source :: r.1, r.2)
    | some (.rename newPath) =>
      let r := execAux ovr rest (i + 1) (addUnique dirs (dirnameS op.source))
      (FsAction.mkdirpA (dirnameS newPath) :: FsAction.renameA op.source newPath :: r.1,
       r.2)
    | none =>
      match op with
      | .delete source _ =>
        let r := execAux ovr rest (i + 1) (addUnique dirs (dirnameS source))
        (FsAction.unlinkA source :: r.1, r.2)
      | .move source target targetDir =>
        let r := execAux ovr rest (i + 1) (addUnique dirs (dirnameS source))
        (FsAction.mkdirpA targetDir :: FsAction.renameA source target :: r.1, r.2)

/-- The executor: mutation trace and recorded source directories for a
plan and an override map. -/
def executeRun (ops : List Op) (ovr : Int → Option Override2) :
    List FsAction × List String :=
  execAux ovr ops 0 []

/-- Modelled from the spec (§4.6), for comparison with `executeRun`: the
effective per-entry actions under override precedence, in the claim's own
words — `Ignore` skips the index entirely; `Rename{new_path}` always moves
the source to `new_path` after creating its parent directories; a `Delete`
override removes the source; absent an override the plan entry's native
action runs. -/
def overrideEffect (ovr : Option Override2) (op : Op) : List FsAction :=
  match ovr with
  | some .ignore => []
  | some .del => [FsAction.unlinkA op.source]
  | some (.rename newPath) =>
    [FsAction.mkdirpA (dirnameS newPath), FsAction.renameA op.source newPath]
  | none =>
    match op with
    | .delete source _ => [FsAction.unlinkA source]
    | .move source target targetDir =>
      [FsAction.mkdirpA targetDir, FsAction.renameA source target]

/-- Modelled from the spec (§4.6): the whole trace is the plan-order
concatenation of the per-entry effective actions. -/
def executorSpecActions (ops : List Op) (ovr : Int → Option Override2) :
    List FsAction :=
  (ops.enum).flatMap (fun p => overrideEffect (ovr (p.1 : Int)) p.2)

/-- Modelled from the spec (§4.6): the parent directory of every processed
(non-ignored) source, in plan order, without duplicates. -/
def executorSpecDirs (ops : List Op) (ovr : Int → Option Override2) :
    List String :=
  (ops.enum).foldl
    (fun dirs p =>
      if ovr (p.1 : Int) = some Override2.ignore then dirs
      else addUnique dirs (dirnameS p.2.source))
    []

/-! ## Directory pruner (`removeEmptyUpwards`, `pruneAllEmptyDirs`)

Paths are segment lists here as in the scanner.  What
`tryRemoveIfEffectivelyEmpty` does to the filesystem is irrelevant to the
root-safety claim, so it is abstracted as a state-transforming oracle
`Path → σ → Bool × σ`; the walk and the sweep — the two functions the
claim is about — are translated from the source, and the theorems record
which directories they pass to the remover. -/

/-- Function `removeEmptyUpwards(startDir, stopAt)` from `fileOps.js`: walk upward
from `startDir`, breaking at `stopAt` itself, at any directory not
strictly inside `stopAt` (the `relative(...)` guard), or at the first
directory the remover declines; otherwise remove and climb via `dirname`.
Returns the final oracle state and the ordered list of directories the
remover was asked to remove.  Fuel bounds the climb (each step drops one
segment, so `startDir` length suffices). -/
def removeEmptyUpwards (tryRem : List String → σ → Bool × σ) :
    Nat → List String → List String → σ → σ × List (List String)
  | 0, _, _, st => (st, [])
  | fuel + 1, current, stopAt, st =>
    if current = stopAt then (st, [])
    else if ¬ (stopAt.isPrefixOf current) then (st, [])
    else
      let r := tryRem current st
      if r.1 then
        let rec2 := removeEmptyUpwards tryRem fuel current.dropLast stopAt r.2
        (rec2.1, current :: rec2.2)
      else (r.2, [current])

/-- The final `for` loop of `pruneAllEmptyDirs` (lines 252–256): the
directories gathered by the stack walk, deepest rendered path first, with
the root skipped by the `dir === root` guard; the result is the ordered
list of directories passed to the remover. -/
def pruneSweepAttempts (root : List String) (visited : List (List String)) :
    List (List String) :=
  (visited.mergeSort
      (fun a b => (intercalateSlash b).length ≤ (intercalateSlash a).length)).filter
    (fun d => d ≠ root)

/-! ## EXIF date extraction (`extractExifDate`)

The buffer is a byte list; every `DataView` read is an `Option` that is
`none` out of range, and the surrounding `try`/`catch` becomes an
`Except Unit` computation: `.error ()` is a thrown `RangeError`, `.ok
none` is the normal-control-flow `return null`, and both collapse to
`none` in `extractExifDate` exactly as the `catch` block does. -/

/-- Byte buffer. -/
abbrev Buf := List Nat

/-- Read `getUint8`: `none` out of range; stored values are bytes. -/
def getU8 (b : Buf) (i : Nat) : Option Nat :=
  (b.get? i).map (fun v => v % 256)

/-- Read `getUint16(i, littleEndian)`. -/
def getU16 (b : Buf) (i : Nat) (little : Bool) : Option Nat := do
  let x ← getU8 b i
  let y ← getU8 b (i + 1)
  pure (if little then y * 256 + x else x * 256 + y)

/-- Read `getUint32(i, littleEndian)`. -/
def getU32 (b : Buf) (i : Nat) (little : Bool) : Option Nat := do
  let x0 ← getU8 b i
  let x1 ← getU8 b (i + 1)
  let x2 ← getU8 b (i + 2)
  let x3 ← getU8 b (i + 3)
  pure (if little then ((x3 * 256 + x2) * 256 + x1) * 256 + x0
        else ((x0 * 256 + x1) * 256 + x2) * 256 + x3)

/-- The JPEG marker-segment scan (lines 21–32): starting at offset 2,
read a marker and a segment length; an APP1 marker first advances 4 bytes,
then — short-circuit `&&` — checks the `Exif` signature and, only when it
matches, the two padding bytes; a full match breaks with the offset just
past the signature, otherwise the scan continues past the segment. Any
failing read is the thrown `RangeError`. The loop exits normally when the
offset reaches `byteLength - 1`; each step advances at least 2, so
`b.length + 1` fuel is never exhausted. -/
def jpegScan (b : Buf) : Nat → Nat → Except Unit Nat
  | offset, 0 => .ok offset
  | offset, fuel + 1 =>
    if offset < b.length - 1 then
      match getU16 b offset false with
      | none => .error ()
      | some marker =>
        match getU16 b (offset + 2) false with
        | none => .error ()
        | some segLen =>
          if marker = 0xFFE1 then
            match getU32 b (offset + 4) false with
            | none => .error ()
            | some sig =>
              if sig = 0x45786966 then
                match getU16 b (offset + 8) false with
                | none => .error ()
                | some pad =>
                  if pad = 0 then .ok (offset + 10)
                  else jpegScan b (offset + 4 + 2 + segLen) fuel
              else jpegScan b (offset + 4 + 2 + segLen) fuel
          else jpegScan b (offset + 2 + segLen) fuel
    else .ok offset

/-- Offset of the TIFF structure inside the buffer (lines 16–33): 0 unless
the buffer opens with the JPEG SOI marker, in which case the APP1/Exif
scan decides it. -/
def tiffOffsetE (b : Buf) : Except Unit Nat :=
  match getU16 b 0 false with
  | none => .error ()
  | some w => if w = 0xFFD8 then jpegScan b 2 (b.length + 1) else .ok 0

/-- Two decimal digit characters to a number. -/
def twoDigits (a b : Char) : Nat :=
  (a.toNat - 48) * 10 + (b.toNat - 48)

/-- The `^(\d{4}):(\d{2}):(\d{2}) (\d{2}):(\d{2}):(\d{2})$` match on the
decoded tag value (lines 65–68): a full match yields the date built from
the captured groups, anything else fails. -/
def parseDateStr : List Char → Option DateT
  | [y1, y2, y3, y4, c1, mo1, mo2, c2, d1, d2, sp, h1, h2, c3, mi1, mi2, c4, s1, s2] =>
    if y1.isDigit && y2.isDigit && y3.isDigit && y4.isDigit && c1 = ':' &&
        mo1.isDigit && mo2.isDigit && c2 = ':' && d1.isDigit && d2.isDigit &&
        sp = ' ' && h1.isDigit && h2.isDigit && c3 = ':' && mi1.isDigit &&
        mi2.isDigit && c4 = ':' && s1.isDigit && s2.isDigit then
      some { year := ((y1.toNat - 48) * 10 + (y2.toNat - 48)) * 100 + twoDigits y3 y4,
             month := twoDigits mo1 mo2, day := twoDigits d1 d2,
             hour := twoDigits h1 h2, minute := twoDigits mi1 mi2,
             second := twoDigits s1 s2 }
    else none
  | _ => none

/-- The `String.fromCharCode` accumulation over `count - 1` bytes starting at
the value offset (lines 61–64); a failing byte read is the thrown
`RangeError`. -/
def readChars (b : Buf) : Nat → Nat → Except Unit (List Char)
  | _, 0 => .ok []
  | off, n + 1 =>
    match getU8 b off with
    | none => .error ()
    | some v =>
      match readChars b (off + 1) n with
      | .error e => .error e
      | .ok cs => .ok (Char.ofNat v :: cs)

/-- The IFD entry scan for tag `0x9003` (lines 48–72, and verbatim again
for the sub-IFD in lines 81–105): walk `numEntries` 12-byte entries from
`ifdPos + 2`; at the tag, an ASCII-format (2) value is decoded — inline at
the entry's value slot when `count ≤ 4`, else at the TIFF-relative offset
read from it — and a full date-pattern match returns the date, while any
mismatch just continues the walk. `.ok none` means the walk ended without
a match. -/
def scanEntriesDate (b : Buf) (tiffOff ifdPos : Nat) (little : Bool) :
    Nat → Nat → Except Unit (Option DateT)
  | 0, _ => .ok none
  | n + 1, i =>
    let eo := ifdPos + 2 + i * 12
    match getU16 b eo little with
    | none => .error ()
    | some tag =>
      if tag = 0x9003 then
        match getU16 b (eo + 2) little with
        | none => .error ()
        | some fmt =>
          match getU32 b (eo + 4) little with
          | none => .error ()
          | some count =>
            if fmt = 2 then
              match getU32 b (eo + 8) little with
              | none => .error ()
              | some vo0 =>
                let vo := if count ≤ 4 then eo + 8 else tiffOff + vo0
                match readChars b vo (count - 1) with
                | .error e => .error e
                | .ok cs =>
                  match parseDateStr cs with
                  | some d => .ok (some d)
                  | none => scanEntriesDate b tiffOff ifdPos little n (i + 1)
            else scanEntriesDate b tiffOff ifdPos little n (i + 1)
      else scanEntriesDate b tiffOff ifdPos little n (i + 1)

/-- The second IFD0 pass (lines 74–107): look for the EXIF sub-IFD pointer
tag `0x8769`; at each hit, read the sub-IFD position and run the same date
scan there — a found date returns, otherwise the outer walk continues. -/
def scanEntriesSub (b : Buf) (tiffOff ifdPos : Nat) (little : Bool) :
    Nat → Nat → Except Unit (Option DateT)
  | 0, _ => .ok none
  | n + 1, i =>
    let eo := ifdPos + 2 + i * 12
    match getU16 b eo little with
    | none => .error ()
    | some tag =>
      if tag = 0x8769 then
        match getU32 b (eo + 8) little with
        | none => .error ()
        | some subOff =>
          let pos := tiffOff + subOff
          match getU16 b pos little with
          | none => .error ()
          | some subNum =>
            match scanEntriesDate b tiffOff pos little subNum 0 with
            | .error e => .error e
            | .ok (some d) => .ok (some d)
            | .ok none => scanEntriesSub b tiffOff ifdPos little n (i + 1)
      else scanEntriesSub b tiffOff ifdPos little n (i + 1)

/-- The body of `extractExifDate` up to the `catch`: locate the TIFF
structure, decode the byte-order word (`II` little-endian, `MM`
big-endian, anything else `return null`), find IFD0 from the header's
offset word, scan it for `DateTimeOriginal`, then for the EXIF sub-IFD. -/
def extractExifCore (b : Buf) : Except Unit (Option DateT) :=
  match tiffOffsetE b with
  | .error e => .error e
  | .ok offset =>
    match getU16 b offset false with
    | none => .error ()
    | some tiffHeader =>
      if tiffHeader = 0x4949 ∨ tiffHeader = 0x4D4D then
        let little := tiffHeader = 0x4949
        match getU32 b (offset + 4) little with
        | none => .error ()
        | some ifd0Off =>
          let ifd0Pos := offset + ifd0Off
          match getU16 b ifd0Pos little with
          | none => .error ()
          | some numEntries =>
            match scanEntriesDate b offset ifd0Pos little numEntries 0 with
            | .error e => .error e
            | .ok (some d) => .ok (some d)
            | .ok none => scanEntriesSub b offset ifd0Pos little numEntries 0
      else .ok none

/-- Function `extractExifDate(buffer)`: a parsed date, or `null` — both for a
normal no-date run and for any exception swallowed by the `catch`. -/
def extractExifDate (b : Buf) : Option DateT :=
  match extractExifCore b with
  | .ok (some d) => some d
  | _ => none

/-! ## Concrete fixtures used by counterexamples and witnesses -/

/-- A capture date of 2023-06-01. -/
def dJune : DateT := { year := 2023, month := 6, day := 1, hour := 0, minute := 0, second := 0 }

/-- A filesystem with no file at any candidate destination. -/
def fsEmpty : FsModel := { pathExists := fun _ => false, hashOf := fun _ => "" }

/-- Two scanned files named `photo.jpg` in different directories, distinct
content (hashes `h1`, `h2`), same capture date. -/
def scanTwoPhotos : List (String × String × DateT) :=
  [("r/d1/photo.jpg", "h1", dJune), ("r/d2/photo.jpg", "h2", dJune)]

/-- A filesystem whose only file is an already-organized
`r/2023/2023-06-01/a.jpg` with fingerprint `h`. -/
def fsDestDup : FsModel :=
  { pathExists := fun p => p = "r/2023/2023-06-01/a.jpg", hashOf := fun _ => "h" }

/-- Two scanned files with the same fingerprint `h`, `a.jpg` first. -/
def scanTwoIdentical : List (String × String × DateT) :=
  [("r/a.jpg", "h", dJune), ("r/b.jpg", "h", dJune)]

/-- A one-entry plan: a single planned move. -/
def opsSingle : List Op :=
  [Op.move "r/d1/photo.jpg" "r/2023/2023-06-01/photo.jpg" "r/2023/2023-06-01"]

/-- A scan root containing exactly one already-organized subtree
`r/2023/2023-06-01/x.jpg`. -/
def treeOrganized : List FsEntryT :=
  [FsEntryT.dir "2023" [FsEntryT.dir "2023-06-01" [FsEntryT.file "x.jpg"]]]

/-- A filesystem whose only file is `r/2023/2023-06-01/p.jpg`, with a
fingerprint (`zz`) different from the source's. -/
def fsOneTaken : FsModel :=
  { pathExists := fun p => p = "r/2023/2023-06-01/p.jpg", hashOf := fun _ => "zz" }

/-- A non-duplicate scanned record for `r/src/p.jpg` with fingerprint `hh`. -/
def infoFresh : FileInfo :=
  { path := "r/src/p.jpg", hash := "hh", date := dJune, isDuplicate := false,
    originalPath := "" }

/-- An adversarial directory state: every candidate path exists, always
with a fingerprint (`x`) different from the source's (`y`). -/
def fsAllTaken : FsModel := { pathExists := fun _ => true, hashOf := fun _ => "x" }

/-- The record the duplicate-detection pass produces for the second of the
two identical scanned files. -/
def infoDupB : FileInfo :=
  { path := "r/b.jpg", hash := "h", date := dJune, isDuplicate := true,
    originalPath := "r/a.jpg" }

/-! ## C1 — duplicate `Move` destinations in one plan

The claim says no two `Move` operations of one plan share a destination.
`resolveDestinationOperation` only consults the filesystem, which does not
change while the plan is built, so two same-named, same-dated,
distinct-content sources resolve to the *same* free candidate: the plan
for `scanTwoPhotos` over an empty destination holds two `Move` operations
with an identical target. -/

/-- C1: evaluated at the failing input — two scanned files both named
`photo.jpg`, distinct content, same capture date, empty destination
directory — the planning pass emits two `Move` operations with the same
destination path `r/2023/2023-06-01/photo.jpg`. -/
theorem C1_plan_two_moves_same_target :
    buildPlan fsEmpty "r" 3 (markDuplicates scanTwoPhotos) =
      some
        [Op.move "r/d1/photo.jpg" "r/2023/2023-06-01/photo.jpg" "r/2023/2023-06-01",
         Op.move "r/d2/photo.jpg" "r/2023/2023-06-01/photo.jpg" "r/2023/2023-06-01"] := by
  decide

/-! ## C2 — events in the `RenameInput` state

The claim says the only transitions out of `RenameInput` are Cancel
(escape) and Commit (return).  In the source, a character event in rename
mode that is neither escape nor return falls through to the shared
confirm/cancel checks: typing `y` starts execution and typing `n` or `q`
cancels the run, both while rename mode is still active. -/

/-- C2: evaluated at the failing input — after entering rename mode with
`r` on a one-entry plan (a reachable `RenameInput` state), the character
event `y` starts execution (`executing` becomes true, rename mode still
active), and the character event `n` cancels the run (`awaitingConfirm`
false without executing). -/
theorem C2_renameInput_y_starts_execution :
    (runUI opsSingle [KeyEvent.ch 'r']).renameMode = true ∧
    (runUI opsSingle [KeyEvent.ch 'r']).executing = false ∧
    (runUI opsSingle [KeyEvent.ch 'r', KeyEvent.ch 'y']).executing = true ∧
    (runUI opsSingle [KeyEvent.ch 'r', KeyEvent.ch 'y']).renameMode = true ∧
    (runUI opsSingle [KeyEvent.ch 'r', KeyEvent.ch 'n']).awaitingConfirm = false ∧
    (runUI opsSingle [KeyEvent.ch 'r', KeyEvent.ch 'n']).executing = false := by
  refine ⟨rfl, rfl, rfl, rfl, rfl, rfl⟩

/-! ## C3 — organized subtrees: skipped, but not recorded as visited

The claim says a skipped organized subtree's directory is still recorded
in the visited set.  In the source the `continue` fires *before*
`dirSet.add(fullPath)`, so the skipped directory is never recorded.  The
subtree is indeed skipped entirely; the amended claim drops only the
"still recorded as visited" part. -/

/-- C3 counterexample: scanning a root holding exactly
`2023/2023-06-01/x.jpg`, the organized directory `r/2023/2023-06-01` is
skipped (no files collected) but — against the claim — its path is *not*
in the visited-directory set. -/
theorem C3_organized_dir_not_recorded :
    (findMediaFiles ["r"] treeOrganized).dirs = [["r"], ["r", "2023"]] ∧
    ¬ (["r", "2023", "2023-06-01"] ∈ (findMediaFiles ["r"] treeOrganized).dirs) ∧
    (findMediaFiles ["r"] treeOrganized).files = [] := by
  decide

/-- C3 (amended): a directory entry matching the organized-path pattern is
skipped entirely — the scanner neither descends into it, nor collects any
of its files, nor records its path in the visited set: deleting the entry
from its parent's listing leaves the scanner's entire output unchanged. -/
theorem C3_organized_subtree_skipped (root dirPath : List String)
    (acc : ScanAcc) (pre post : List FsEntryT) (name : String)
    (es : List FsEntryT)
    (h : isInOrganizedPath root (dirPath ++ [name]) = true) :
    scanList root dirPath acc (pre ++ FsEntryT.dir name es :: post) =
      scanList root dirPath acc (pre ++ post) := by
  induction pre generalizing acc with
  | nil => simp [scanList, scanEntry, h]
  | cons e rest ih => simp [scanList, ih]

/-- C3 witness: the amended theorem applied at the concrete organized
subtree of `treeOrganized` inside root `r`. -/
theorem C3_organized_subtree_skipped_witness :
    scanList ["r"] ["r", "2023"] { files := [], dirs := [["r"], ["r", "2023"]] }
        ([] ++ FsEntryT.dir "2023-06-01" [FsEntryT.file "x.jpg"] :: []) =
      scanList ["r"] ["r", "2023"] { files := [], dirs := [["r"], ["r", "2023"]] }
        ([] ++ []) :=
  C3_organized_subtree_skipped ["r"] ["r", "2023"]
    { files := [], dirs := [["r"], ["r", "2023"]] }
    [] [] "2023-06-01" [FsEntryT.file "x.jpg"] (by decide)

/-! ## C4 — override keys are valid plan positions

With a non-empty plan the claim holds: the selection index is clamped into
`[0, length)` by the arrow handlers and overrides are only ever written at
the selection index.  With an *empty* plan, however, the handler still
accepts the `i`/`d` toggles at selection index 0, creating an override
whose key is not a valid position — against the claim's "in particular"
part. -/

/-- The inductive invariant of the review session: the selection index is
a valid plan position and so is every override key. -/
def UIInv (ops : List Op) (s : UIState) : Prop :=
  (0 ≤ s.selectedIndex ∧ s.selectedIndex < (ops.length : Int)) ∧
  (∀ k, (s.overrides k).isSome = true → 0 ≤ k ∧ k < (ops.length : Int))

theorem updOv_valid {ops : List Op} {f : Int → Option Override2} {i : Int}
    {v : Option Override2}
    (hf : ∀ k, (f k).isSome = true → 0 ≤ k ∧ k < (ops.length : Int))
    (hi : 0 ≤ i ∧ i < (ops.length : Int)) :
    ∀ k, ((updOv f i v) k).isSome = true → 0 ≤ k ∧ k < (ops.length : Int) := by
  intro k hk
  unfold updOv at hk
  by_cases hki : k = i
  · subst hki; exact hi
  · simp only [hki, if_false] at hk
    exact hf k hk

theorem toggleIgnore_inv {ops : List Op} {s : UIState} (h : UIInv ops s) :
    UIInv ops (toggleIgnore s) := by
  obtain ⟨hsel, hov⟩ := h
  unfold toggleIgnore
  split
  · exact ⟨hsel, updOv_valid hov hsel⟩
  · exact ⟨hsel, updOv_valid hov hsel⟩

theorem toggleDelete_inv {ops : List Op} {s : UIState} (h : UIInv ops s) :
    UIInv ops (toggleDelete s) := by
  obtain ⟨hsel, hov⟩ := h
  unfold toggleDelete
  split
  · exact ⟨hsel, updOv_valid hov hsel⟩
  · exact ⟨hsel, updOv_valid hov hsel⟩

theorem toggleRename_inv {ops : List Op} {s : UIState} (h : UIInv ops s) :
    UIInv ops (toggleRename ops s) := by
  obtain ⟨hsel, hov⟩ := h
  unfold toggleRename
  split
  · exact ⟨hsel, updOv_valid hov hsel⟩
  · split
    · exact ⟨hsel, hov⟩
    · exact ⟨hsel, hov⟩

theorem commitRename_inv {ops : List Op} {s : UIState} (h : UIInv ops s) :
    UIInv ops (commitRename ops s) := by
  obtain ⟨hsel, hov⟩ := h
  unfold commitRename
  split
  · exact ⟨hsel, hov⟩
  · exact ⟨hsel, updOv_valid hov hsel⟩

set_option maxHeartbeats 1600000 in
theorem stepUI_inv (ops : List Op) (hlen : 1 ≤ ops.length) (s : UIState)
    (h : UIInv ops s) (e : KeyEvent) : UIInv ops (stepUI ops s e) := by
  have hlen1 : (1 : Int) ≤ (ops.length : Int) := by exact_mod_cast hlen
  obtain ⟨⟨hs0, hs1⟩, hov⟩ := h
  have hs : UIInv ops s := ⟨⟨hs0, hs1⟩, hov⟩
  cases e with
  | up =>
    unfold stepUI
    split
    · exact hs
    split
    · exact hs
    split
    · exact hs
    · exact ⟨⟨le_max_right _ _, max_lt (by omega) (by omega)⟩, hov⟩
  | down =>
    unfold stepUI
    split
    · exact hs
    split
    · exact hs
    split
    · exact hs
    · exact ⟨⟨le_min (by omega) (by omega),
        lt_of_le_of_lt (min_le_right _ _) (by omega)⟩, hov⟩
  | esc =>
    unfold stepUI
    split
    · exact hs
    split
    · exact hs
    split
    · exact hs
    · exact hs
  | ret =>
    unfold stepUI
    split
    · exact hs
    split
    · exact hs
    split
    · exact commitRename_inv hs
    · exact hs
  | ch c =>
    unfold stepUI
    split
    · exact hs
    split
    · exact hs
    split
    · dsimp only
      split_ifs <;> exact hs
    · dsimp only
      split_ifs with h1 h2 h3
      · exact toggleIgnore_inv hs
      · exact toggleDelete_inv hs
      · exact toggleRename_inv hs
      all_goals exact hs

/-- C4 (amended): for a *non-empty* plan, at every state reachable by any
event sequence in one review session, every key of the override map is a
valid plan position. -/
theorem C4_overrides_valid_for_nonempty_plan (ops : List Op)
    (events : List KeyEvent) (hne : ops ≠ []) :
    ∀ k, ((runUI ops events).overrides k).isSome = true →
      0 ≤ k ∧ k < (ops.length : Int) := by
  have hlen : 1 ≤ ops.length := by
    cases ops with
    | nil => exact absurd rfl hne
    | cons a l => exact Nat.succ_le_succ (Nat.zero_le _)
  have hinit : UIInv ops uiInit := by
    refine ⟨⟨le_refl 0, ?_⟩, ?_⟩
    · show (0 : Int) < (ops.length : Int)
      exact_mod_cast hlen
    · intro k hk
      simp [uiInit] at hk
  have hrun : ∀ (evs : List KeyEvent) (s : UIState),
      UIInv ops s → UIInv ops (evs.foldl (stepUI ops) s) := by
    intro evs
    induction evs with
    | nil => intro s hs; exact hs
    | cons e rest ih =>
      intro s hs
      exact ih _ (stepUI_inv ops hlen s hs e)
  exact (hrun events uiInit hinit).2

/-- C4 witness: the amended theorem applied to the one-entry plan after
the `d` toggle, whose override key `0` is indeed a valid position. -/
theorem C4_overrides_valid_witness :
    0 ≤ (0 : Int) ∧ (0 : Int) < (opsSingle.length : Int) :=
  C4_overrides_valid_for_nonempty_plan opsSingle [KeyEvent.ch 'd']
    (by decide) 0 (by decide)

/-- C4 counterexample: with an *empty* plan the session still accepts the
`d` toggle and creates the override entry at key 0, which is not a valid
position of the empty plan. -/
theorem C4_empty_plan_override_created :
    (runUI ([] : List Op) [KeyEvent.ch 'd']).overrides 0 = some Override2.del ∧
    ([] : List Op).length = 0 := by
  exact ⟨rfl, rfl⟩

/-! ## C5 — first-in-scan-order file and the duplicate pass

The fingerprint pass itself behaves exactly as claimed: the first scanned
file of each fingerprint is never marked duplicate, every later one is,
citing that first path, and the canonical path never changes once set.
But the claim says the first is never the source of *any* `Delete`
duplicate operation — and `resolveDestinationOperation` can still delete
it as a byte-identical duplicate of a file already sitting at the
destination (which, being under an organized path, was never scanned). -/

/-- What the duplicate pass knows at a point mid-scan: the `seenHashes`
entry if present, otherwise the first occurrence in the remaining-prefix
being folded over. -/
def combinedLookup (seen : List (String × String))
    (pre : List (String × String × DateT)) (h : String) : Option String :=
  match lookupA seen h with
  | some p => some p
  | none => firstPathWith pre h

theorem lookupA_cons (k v : String) (seen : List (String × String)) (h : String) :
    lookupA ((k, v) :: seen) h = if k = h then some v else lookupA seen h := by
  by_cases hk : k = h <;> simp [lookupA, List.find?_cons, hk]

theorem firstPathWith_cons (g : String × String × DateT)
    (pre : List (String × String × DateT)) (h : String) :
    firstPathWith (g :: pre) h =
      if g.2.1 = h then some g.1 else firstPathWith pre h := by
  by_cases hg : g.2.1 = h <;> simp [firstPathWith, List.find?_cons, hg]

theorem combinedLookup_cons (seen : List (String × String))
    (g : String × String × DateT) (pre : List (String × String × DateT))
    (h : String) :
    combinedLookup
        (match lookupA seen g.2.1 with
         | some _ => seen
         | none => (g.2.1, g.1) :: seen) pre h =
      combinedLookup seen (g :: pre) h := by
  unfold combinedLookup
  rcases hg : lookupA seen g.2.1 with _ | orig
  · rw [lookupA_cons]
    by_cases hh : g.2.1 = h
    · subst hh
      simp [hg, firstPathWith_cons]
    · simp only [hh, if_false]
      rcases hs : lookupA seen h with _ | p
      · rw [firstPathWith_cons]
        simp [hh]
      · rfl
  · by_cases hh : g.2.1 = h
    · subst hh
      simp [hg, firstPathWith_cons]
    · rcases hs : lookupA seen h with _ | p
      · rw [firstPathWith_cons]
        simp [hh]
      · rfl

theorem markAux_get (rest : List (String × String × DateT)) :
    ∀ (seen : List (String × String)) (i : Nat) (f : String × String × DateT)
      (info : FileInfo),
      rest.get? i = some f → (markAux seen rest).get? i = some info →
      info.path = f.1 ∧ info.hash = f.2.1 ∧
      (match combinedLookup seen (rest.take i) f.2.1 with
       | none => info.isDuplicate = false
       | some orig => info.isDuplicate = true ∧ info.originalPath = orig) := by
  induction rest with
  | nil =>
    intro seen i f info hf _
    simp at hf
  | cons g rest2 ih =>
    intro seen i f info hf hinfo
    cases i with
    | zero =>
      obtain ⟨p, h, d⟩ := g
      simp only [List.get?] at hf
      injection hf with hf
      unfold markAux at hinfo
      rcases hg : lookupA seen h with _ | orig
      · rw [hg] at hinfo
        simp only [List.get?] at hinfo
        injection hinfo with hinfo
        subst hinfo
        subst hf
        simp [combinedLookup, hg, firstPathWith]
      · rw [hg] at hinfo
        simp only [List.get?] at hinfo
        injection hinfo with hinfo
        subst hinfo
        subst hf
        simp [combinedLookup, hg]
    | succ i2 =>
      obtain ⟨p, h, d⟩ := g
      simp only [List.get?] at hf
      unfold markAux at hinfo
      rcases hg : lookupA seen h with _ | orig
      · rw [hg] at hinfo
        simp only [List.get?] at hinfo
        have := ih ((h, p) :: seen) i2 f info hf hinfo
        refine ⟨this.1, this.2.1, ?_⟩
        have hcl := combinedLookup_cons seen (p, h, d) (rest2.take i2) f.2.1
        simp only [hg] at hcl
        rw [List.take_succ_cons]
        rw [← hcl]
        exact this.2.2
      · rw [hg] at hinfo
        simp only [List.get?] at hinfo
        have := ih seen i2 f info hf hinfo
        refine ⟨this.1, this.2.1, ?_⟩
        have hcl := combinedLookup_cons seen (p, h, d) (rest2.take i2) f.2.1
        simp only [hg] at hcl
        rw [List.take_succ_cons]
        rw [← hcl]
        exact this.2.2

/-- C5 (amended): in the duplicate pass, the first scanned file of each
fingerprint is never marked duplicate (so it never produces the
duplicate-pass `Delete`); every later file with the same fingerprint is
marked duplicate with the first-seen path — fixed once set — as its
canonical path, and the plan gives each such record a `Delete` whose
reason cites that canonical path.  (The first file may still become the
source of a `Delete` citing an already-existing *destination* file with
an equal fingerprint — the situation the counterexample exhibits, and the
only part of the original claim that fails.) -/
theorem C5_duplicate_marking_canonical (files : List (String × String × DateT))
    (fs : FsModel) (root : String) (fuel : Nat) (i : Nat)
    (f : String × String × DateT) (info : FileInfo)
    (hf : files.get? i = some f)
    (hinfo : (markDuplicates files).get? i = some info) :
    info.path = f.1 ∧ info.hash = f.2.1 ∧
    (match firstPathWith (files.take i) f.2.1 with
     | none => info.isDuplicate = false
     | some orig => info.isDuplicate = true ∧ info.originalPath = orig) ∧
    (info.isDuplicate = true →
      planStep fs root fuel info =
        some [Op.delete info.path ("Duplicate of " ++ info.originalPath)]) := by
  have hm := markAux_get files [] i f info hf hinfo
  refine ⟨hm.1, hm.2.1, ?_, ?_⟩
  · have : combinedLookup [] (files.take i) f.2.1 = firstPathWith (files.take i) f.2.1 := by
      simp [combinedLookup, lookupA]
    rw [← this]
    exact hm.2.2
  · intro hdup
    unfold planStep
    rw [hdup]
    simp

/-- C5 witness: the characterization applied to the second of two
identical scanned files; it is marked duplicate of the first. -/
theorem C5_duplicate_marking_canonical_witness :
    infoDupB.path = "r/b.jpg" ∧ infoDupB.hash = "h" ∧
    (match firstPathWith (scanTwoIdentical.take 1) "h" with
     | none => infoDupB.isDuplicate = false
     | some orig => infoDupB.isDuplicate = true ∧ infoDupB.originalPath = orig) ∧
    (infoDupB.isDuplicate = true →
      planStep fsEmpty "r" 3 infoDupB =
        some [Op.delete infoDupB.path ("Duplicate of " ++ infoDupB.originalPath)]) :=
  C5_duplicate_marking_canonical scanTwoIdentical fsEmpty "r" 3 1
    ("r/b.jpg", "h", dJune) infoDupB (by decide) (by decide)

/-- C5 counterexample: both scanned files carry fingerprint `h`, and the
destination already holds an identical `a.jpg`; the *first* scanned file
`r/a.jpg` is itself the source of a `Delete` duplicate operation (citing
the destination file), contradicting "the first in scan order is never
the source of a Delete duplicate operation". -/
theorem C5_first_file_gets_duplicate_delete :
    buildPlan fsDestDup "r" 3 (markDuplicates scanTwoIdentical) =
      some [Op.delete "r/a.jpg" "Duplicate of r/2023/2023-06-01/a.jpg",
            Op.delete "r/b.jpg" "Duplicate of r/a.jpg"] := by
  decide

/-! ## C6/C7 — the destination-conflict-resolution loop

Two shared lemmas: the loop walks past every non-stopping attempt index,
and a successful result implies some index satisfies the stop
condition. -/

theorem resolveAux_succ (fs : FsModel) (h td b e : String) (i m : Nat) :
    resolveAux fs h td b e i (m + 1) =
      (if fs.pathExists (candPathAt td b e i) = false
       then some (Resolution.move (candPathAt td b e i) td)
       else if fs.hashOf (candPathAt td b e i) = h
       then some (Resolution.delete (candPathAt td b e i))
       else resolveAux fs h td b e (i + 1) m) := rfl

theorem resolveAux_stepThrough (fs : FsModel) (h td b e : String) :
    ∀ (k i fuel : Nat),
      (∀ j, i ≤ j → j < i + k → ¬ stopCond fs h td b e j) →
      resolveAux fs h td b e i (k + fuel) = resolveAux fs h td b e (i + k) fuel := by
  intro k
  induction k with
  | zero =>
    intro i fuel _
    simp
  | succ k2 ih =>
    intro i fuel hno
    have hstop : ¬ stopCond fs h td b e i := hno i (le_refl i) (by omega)
    unfold stopCond at hstop
    push_neg at hstop
    have hex : fs.pathExists (candPathAt td b e i) = true := by
      revert hstop
      cases fs.pathExists (candPathAt td b e i) <;> simp
    have h2 : ¬ fs.hashOf (candPathAt td b e i) = h := hstop.2
    have harith : k2 + 1 + fuel = (k2 + fuel) + 1 := by omega
    rw [harith, resolveAux_succ]
    rw [if_neg (by simp [hex]), if_neg h2]
    rw [ih (i + 1) fuel (by intro j hj1 hj2; exact hno j (by omega) (by omega))]
    have harith2 : i + 1 + k2 = i + (k2 + 1) := by omega
    rw [harith2]

theorem resolveAux_isSome_stop (fs : FsModel) (h td b e : String) :
    ∀ (fuel i : Nat), (resolveAux fs h td b e i fuel).isSome = true →
      ∃ n, stopCond fs h td b e n := by
  intro fuel
  induction fuel with
  | zero =>
    intro i hs
    simp [resolveAux] at hs
  | succ f2 ih =>
    intro i hs
    unfold resolveAux at hs
    by_cases h1 : fs.pathExists (candPathAt td b e i) = false
    · exact ⟨i, Or.inl h1⟩
    · by_cases h2 : fs.hashOf (candPathAt td b e i) = h
      · exact ⟨i, Or.inr h2⟩
      · simp only [h1, h2, if_false] at hs
        exact ih (i + 1) hs

/-- C7: the conflict-resolution loop terminates exactly when some attempt
index satisfies the stop condition (free name, or existing name with the
source's fingerprint); on a directory state where every candidate exists
with a different fingerprint, no amount of fuel makes it return. -/
theorem C7_resolution_terminates_iff (fs : FsModel) (h targetDir base ext : String) :
    ((∃ fuel, (resolveAux fs h targetDir base ext 0 fuel).isSome = true) ↔
      (∃ n, stopCond fs h targetDir base ext n)) ∧
    ((∀ n, ¬ stopCond fs h targetDir base ext n) →
      ∀ fuel, resolveAux fs h targetDir base ext 0 fuel = none) := by
  constructor
  · constructor
    · rintro ⟨fuel, hs⟩
      exact resolveAux_isSome_stop fs h targetDir base ext fuel 0 hs
    · rintro hex
      have hN := Nat.find_spec hex
      refine ⟨Nat.find hex + 1, ?_⟩
      have hstep := resolveAux_stepThrough fs h targetDir base ext (Nat.find hex) 0 1
        (by intro j hj1 hj2; exact Nat.find_min hex (by omega))
      rw [hstep]
      rw [Nat.zero_add]
      unfold resolveAux
      rcases hN with h1 | h2
      · simp [h1]
      · by_cases h1 : fs.pathExists (candPathAt targetDir base ext (Nat.find hex)) = false
        · simp [h1]
        · simp [h1, h2]
  · intro hall fuel
    rcases hres : resolveAux fs h targetDir base ext 0 fuel with _ | r
    · rfl
    · exfalso
      obtain ⟨n, hn⟩ := resolveAux_isSome_stop fs h targetDir base ext fuel 0
        (by rw [hres]; rfl)
      exact hall n hn

/-- C7 witness: on the adversarial all-taken, never-matching directory
state the loop returns `none` at (for instance) fuel 7. -/
theorem C7_resolution_witness :
    resolveAux fsAllTaken "y" "r/2023/2023-06-01" "a" ".jpg" 0 7 = none :=
  (C7_resolution_terminates_iff fsAllTaken "y" "r/2023/2023-06-01" "a" ".jpg").2
    (by intro n; simp [stopCond, fsAllTaken]) 7

/-- C6: planning of a non-duplicate record.  With `td` the planned target
directory — `<root>/<year>/<year>-<month>-<day>`, zero-padded — and
`b`/`e` the source's split base name: a record already at its
first-candidate path produces no operation; otherwise, if every attempt
below `N` hits an existing candidate with a different fingerprint, then at
`N` a non-existent candidate yields exactly a `Move` there, and an
existing candidate with the source's fingerprint yields exactly a `Delete`
citing that candidate path. -/
theorem C6_nondup_planning (fs : FsModel) (root : String) (fuel : Nat)
    (info : FileInfo) (N : Nat) (td b e : String)
    (hdup : info.isDuplicate = false)
    (htd : td = targetDirOf root info.date)
    (hbe : (b, e) = splitNameAndExt (basenameS info.path)) :
    (info.path = joinS td (basenameS info.path) →
      planStep fs root fuel info = some []) ∧
    (info.path ≠ joinS td (basenameS info.path) →
      (∀ k, k < N → fs.pathExists (candPathAt td b e k) = true ∧
        fs.hashOf (candPathAt td b e k) ≠ info.hash) →
      N + 1 ≤ fuel →
      ((fs.pathExists (candPathAt td b e N) = false →
         planStep fs root fuel info =
           some [Op.move info.path (candPathAt td b e N) td]) ∧
       (fs.pathExists (candPathAt td b e N) = true →
        fs.hashOf (candPathAt td b e N) = info.hash →
         planStep fs root fuel info =
           some [Op.delete info.path ("Duplicate of " ++ candPathAt td b e N)]))) := by
  subst htd
  constructor
  · intro heq
    simp only [planStep, hdup, Bool.false_eq_true, if_false]
    rw [if_pos heq]
  · intro hne hbelow hfuel
    have hb1 : (splitNameAndExt (basenameS info.path)).1 = b := by rw [← hbe]
    have he2 : (splitNameAndExt (basenameS info.path)).2 = e := by rw [← hbe]
    have hres : resolveDestinationOperation fs info.path info.hash
        (targetDirOf root info.date) fuel =
        resolveAux fs info.hash (targetDirOf root info.date) b e N (fuel - N) := by
      show resolveAux fs info.hash (targetDirOf root info.date)
          (splitNameAndExt (basenameS info.path)).1
          (splitNameAndExt (basenameS info.path)).2 0 fuel = _
      rw [hb1, he2]
      have harith : fuel = N + (fuel - N) := by omega
      conv_lhs => rw [harith]
      have hthrough := resolveAux_stepThrough fs info.hash
        (targetDirOf root info.date) b e N 0 (fuel - N)
        (by
          intro j hj1 hj2
          unfold stopCond
          push_neg
          have hbj := hbelow j (by omega)
          exact ⟨by simp [hbj.1], hbj.2⟩)
      rw [hthrough]
      rw [Nat.zero_add]
    obtain ⟨m, hm⟩ : ∃ m, fuel - N = m + 1 := ⟨fuel - N - 1, by omega⟩
    rw [hm] at hres
    constructor
    · intro hfree
      simp only [planStep, hdup, Bool.false_eq_true, if_false]
      rw [if_neg hne, hres, resolveAux_succ]
      rw [if_pos hfree]
    · intro hex hhash
      simp only [planStep, hdup, Bool.false_eq_true, if_false]
      rw [if_neg hne, hres, resolveAux_succ]
      rw [if_neg (by simp [hex]), if_pos hhash]

/-- C6 witness: the concrete non-duplicate record `r/src/p.jpg` whose
first candidate is taken by a different file: the plan is exactly a
`Move` to the `p-1.jpg` candidate. -/
theorem C6_nondup_planning_witness :
    planStep fsOneTaken "r" 3 infoFresh =
      some [Op.move "r/src/p.jpg" "r/2023/2023-06-01/p-1.jpg" "r/2023/2023-06-01"] :=
  ((C6_nondup_planning fsOneTaken "r" 3 infoFresh 1 "r/2023/2023-06-01" "p" ".jpg"
      rfl (by decide) (by decide)).2
    (by decide)
    (by
      intro k hk
      have hk0 : k = 0 := by omega
      subst hk0
      exact ⟨by decide, by decide⟩)
    (by omega)).1 (by decide)

/-! ## C8 — totality of the EXIF date extractor -/

/-- C8: the extractor is total — it returns a date or `none`, never an
exception (exceptions are `.error` values of the core and collapse to
`none`); a TIFF byte-order word other than `II` (0x4949) or `MM` (0x4D4D)
at the computed TIFF offset yields `none`; a buffer too short to read the
byte-order word at that offset yields `none`; and an exception while
computing the offset itself yields `none`. -/
theorem C8_exif_total_and_header (b : Buf) :
    (extractExifDate b = none ∨ ∃ d, extractExifDate b = some d) ∧
    (∀ off w, tiffOffsetE b = .ok off → getU16 b off false = some w →
      w ≠ 0x4949 → w ≠ 0x4D4D → extractExifDate b = none) ∧
    (∀ off, tiffOffsetE b = .ok off → getU16 b off false = none →
      extractExifDate b = none) ∧
    (tiffOffsetE b = .error () → extractExifDate b = none) := by
  refine ⟨?_, ?_, ?_, ?_⟩
  · rcases h : extractExifDate b with _ | d
    · exact Or.inl rfl
    · exact Or.inr ⟨d, rfl⟩
  · intro off w hoff hw hne1 hne2
    have hcond : ¬ (w = 0x4949 ∨ w = 0x4D4D) := by
      push_neg
      exact ⟨hne1, hne2⟩
    simp [extractExifDate, extractExifCore, hoff, hw, hcond]
  · intro off hoff hnone
    simp [extractExifDate, extractExifCore, hoff, hnone]
  · intro herr
    simp [extractExifDate, extractExifCore, herr]

/-- C8 witness: a two-byte buffer whose byte-order word `0x002A` is
neither `II` nor `MM` extracts no date. -/
theorem C8_exif_witness : extractExifDate [0x00, 0x2A] = none :=
  ((C8_exif_total_and_header [0x00, 0x2A]).2.1) 0 0x2A rfl rfl
    (by decide) (by decide)

/-! ## C9 — the executor's override precedence -/

theorem execAux_spec (ovr : Int → Option Override2) :
    ∀ (ops : List Op) (i : Nat) (dirs : List String),
      execAux ovr ops i dirs =
        ((List.enumFrom i ops).flatMap
            (fun p => overrideEffect (ovr (p.1 : Int)) p.2),
         (List.enumFrom i ops).foldl
            (fun ds p =>
              if ovr (p.1 : Int) = some Override2.ignore then ds
              else addUnique ds (dirnameS p.2.source))
            dirs) := by
  intro ops
  induction ops with
  | nil => intro i dirs; rfl
  | cons op rest ih =>
    intro i dirs
    rcases hov : ovr (i : Int) with _ | o
    · cases op with
      | delete s r =>
        simp [execAux, hov, List.enumFrom_cons, overrideEffect, Op.source, ih (i + 1)]
      | move s t tdir =>
        simp [execAux, hov, List.enumFrom_cons, overrideEffect, Op.source, ih (i + 1)]
    · cases o with
      | ignore =>
        simp [execAux, hov, List.enumFrom_cons, overrideEffect, ih (i + 1)]
      | del =>
        simp [execAux, hov, List.enumFrom_cons, overrideEffect, Op.source, ih (i + 1)]
      | rename np =>
        simp [execAux, hov, List.enumFrom_cons, overrideEffect, Op.source, ih (i + 1)]

/-- C9: execution processes entries strictly in plan order with override
precedence — the mutation trace is the plan-order concatenation of the
per-entry effective actions (`Ignore` ⇒ nothing; `Rename` ⇒ make the new
path's parents then rename onto it, whatever the entry was; `Delete`
override ⇒ unlink; no override ⇒ the entry's native action), and the
recorded cleanup candidates are exactly the source parent directories of
the non-ignored entries. -/
theorem C9_executor_override_precedence (ops : List Op)
    (ovr : Int → Option Override2) :
    executeRun ops ovr = (executorSpecActions ops ovr, executorSpecDirs ops ovr) :=
  execAux_spec ovr ops 0 []

/-- C9 witness: the correspondence instantiated on the one-entry plan
with no overrides. -/
theorem C9_executor_witness :
    executeRun opsSingle (fun _ => none) =
      (executorSpecActions opsSingle (fun _ => none),
       executorSpecDirs opsSingle (fun _ => none)) :=
  C9_executor_override_precedence opsSingle (fun _ => none)

/-! ## C10 — the configured root is never pruned -/

/-- C10: the upward cleanup walk never asks the remover to remove its
`stopAt` root — whatever the remover does and whatever state the
filesystem is in — and the exhaustive sweep's attempt list never contains
the root, regardless of the gathered directory set (in particular of
whether the root is empty or effectively empty). -/
theorem C10_root_never_pruned :
    (∀ (σ : Type) (tryRem : List String → σ → Bool × σ) (fuel : Nat)
        (startDir stopAt : List String) (st : σ),
        stopAt ∉ (removeEmptyUpwards tryRem fuel startDir stopAt st).2) ∧
    (∀ (root : List String) (visited : List (List String)),
        root ∉ pruneSweepAttempts root visited) := by
  constructor
  · intro σ tr fuel
    induction fuel with
    | zero =>
      intro current stopAt st
      simp [removeEmptyUpwards]
    | succ f ih =>
      intro current stopAt st
      unfold removeEmptyUpwards
      by_cases heq : current = stopAt
      · simp [heq]
      rw [if_neg heq]
      by_cases hpre : ¬ (stopAt.isPrefixOf current = true)
      · rw [if_pos hpre]
        simp
      rw [if_neg hpre]
      dsimp only
      by_cases hrem : (tr current st).1 = true
      · rw [if_pos hrem]
        intro hmem
        rcases List.mem_cons.mp hmem with h1 | h2
        · exact heq h1.symm
        · exact ih current.dropLast stopAt (tr current st).2 h2
      · rw [if_neg hrem]
        intro hmem
        exact heq (List.mem_singleton.mp hmem).symm
  · intro root visited
    simp [pruneSweepAttempts, List.mem_filter]

/-- C10 witness: both parts instantiated — an always-removing oracle
walking up from `r/a/b` never attempts `r`, and the sweep over a gathered
set containing the root never attempts the root. -/
theorem C10_root_never_pruned_witness :
    (["r"] ∉ (removeEmptyUpwards (fun _ s => (true, s)) 3 ["r", "a", "b"] ["r"] ()).2) ∧
    (["r"] ∉ pruneSweepAttempts ["r"] [["r"], ["r", "a"]]) :=
  ⟨C10_root_never_pruned.1 Unit (fun _ s => (true, s)) 3 ["r", "a", "b"] ["r"] (),
   C10_root_never_pruned.2 ["r"] [["r"], ["r", "a"]]⟩

end MediaOrg
